import Mathlib

/-!
Verification of the rari-md HTML renderer core (crates/rari-md/src/html.rs and
crates/rari-md/src/bq.rs) against its natural-language specification.

Byte strings are modelled as `List Nat` (one entry per byte); strings that the
source manipulates through Rust `String`/`str` are modelled as Lean `String`.
All definitions are translated from the Rust source; definitions whose doc
comment says so follow the specification text instead, because the
corresponding module is not part of the provided sources.
-/

namespace Rari

/-- Model of `ctype::isspace` (the `crate::ctype` module is not among the
provided sources; the specification only says "a whitespace byte", and the
standard C `isspace` set is used: tab, LF, VT, FF, CR, space). -/
def isspace (b : Nat) : Bool :=
  b == 9 || b == 10 || b == 11 || b == 12 || b == 13 || b == 32

/-- Replacement bytes for one HTML-unsafe byte, from the `match` in
`escape` (html.rs, lines 236-243): `"` to `&quot;`, `&` to `&amp;`,
`<` to `&lt;`, `>` to `&gt;`. -/
def escapeEntity (b : Nat) : List Nat :=
  if b == 34 then [38, 113, 117, 111, 116, 59]
  else if b == 38 then [38, 97, 109, 112, 59]
  else if b == 60 then [38, 108, 116, 59]
  else if b == 62 then [38, 103, 116, 59]
  else [b]

/-- Model of the `character_set!(b"&<>\"")` table used by `escape`
(html.rs, line 232). -/
def htmlUnsafe (b : Nat) : Bool :=
  b == 34 || b == 38 || b == 60 || b == 62

/-- Model of `escape` (html.rs, lines 231-251): the byte stream written to the
output. The Rust code copies maximal safe chunks and splices in the entity for
each unsafe byte; the emitted byte stream is the per-byte concatenation below. -/
def escape : List Nat → List Nat
  | [] => []
  | b :: rest => (if htmlUnsafe b then escapeEntity b else [b]) ++ escape rest

/-- Replacement for one byte in `escape_href` (html.rs, lines 284-293):
`&`, `<`, `>`, `"` and the apostrophe byte 39 (escaped as `&#x27;`) get an
entity, every other byte is passed through (`none`). -/
def hrefEntity (b : Nat) : Option (List Nat) :=
  if b == 38 then some [38, 97, 109, 112, 59]
  else if b == 60 then some [38, 108, 116, 59]
  else if b == 62 then some [38, 103, 116, 59]
  else if b == 34 then some [38, 113, 117, 111, 116, 59]
  else if b == 39 then some [38, 35, 120, 50, 55, 59]
  else none

/-- Model of `escape_href` (html.rs, lines 276-312): the byte stream written
to the output, again flattened from the chunked writes of the source. -/
def escape_href : List Nat → List Nat
  | [] => []
  | b :: rest =>
    match hrefEntity b with
    | some e => e ++ escape_href rest
    | none => b :: escape_href rest

/-- Bytes of the nine denylisted tag names of `tagfilter` (html.rs, lines
150-160), in source order: title, textarea, style, xmp, iframe, noembed,
noframes, script, plaintext. -/
def TAGFILTER_BLACKLIST : List (List Nat) :=
  [[116, 105, 116, 108, 101],
   [116, 101, 120, 116, 97, 114, 101, 97],
   [115, 116, 121, 108, 101],
   [120, 109, 112],
   [105, 102, 114, 97, 109, 101],
   [110, 111, 101, 109, 98, 101, 100],
   [110, 111, 102, 114, 97, 109, 101, 115],
   [115, 99, 114, 105, 112, 116],
   [112, 108, 97, 105, 110, 116, 101, 120, 116]]

/-- ASCII lowercasing of one byte. The source lowercases
`literal[i..]` as a string before the prefix tests (html.rs, line 171); for
the nine all-ASCII-letter names of the denylist the Unicode lowercasing the
source performs agrees with per-byte ASCII lowercasing. -/
def asciiLower (b : Nat) : Nat :=
  if 65 ≤ b ∧ b ≤ 90 then b + 32 else b

/-- Decides whether the first list occurs at the head of the second
(the `starts_with` test of the source, on byte lists). -/
def leadsWith : List Nat → List Nat → Bool
  | [], _ => true
  | _ :: _, [] => false
  | a :: la, b :: lb => a == b && leadsWith la lb

/-- Model of `tagfilter` (html.rs, lines 149-182). The source indexes
`literal[j]` without a bounds check; `none` models the out-of-bounds panic
that happens when the matched name is the final byte of the input, `some r`
models a normal return of `r`. -/
def tagfilter (literal : List Nat) : Option Bool :=
  if literal.length < 3 || literal.head? != some 60 then some false
  else
    let i := if literal.get? 1 == some 47 then 2 else 1
    match TAGFILTER_BLACKLIST.find? (fun t => leadsWith t ((literal.drop i).map asciiLower)) with
    | none => some false
    | some t =>
      let j := i + t.length
      match literal.get? j with
      | none => none
      | some c => some (isspace c || c == 62 || (c == 47 && literal.get? (j + 1) == some 62))

/-- Decimal digits of `n`, most significant first, prepended to `acc`;
structural fuel recursion (any fuel above `n` gives the digits of `n`).
This models the decimal rendering done by the Rust `format!("{}", n)`. -/
def natReprCore : Nat → Nat → List Char → List Char
  | 0, _, acc => acc
  | fuel + 1, n, acc =>
    let d := Char.ofNat (48 + n % 10)
    if n < 10 then d :: acc else natReprCore fuel (n / 10) (d :: acc)

/-- Decimal string of a natural number (model of `format!("{}", n)`). -/
def natRepr (n : Nat) : String :=
  String.mk (natReprCore (n + 1) n [])

/-- Decides whether the first character list occurs at the head of the second. -/
def leadsWithChar : List Char → List Char → Bool
  | [], _ => true
  | _ :: _, [] => false
  | a :: la, b :: lb => a == b && leadsWithChar la lb

/-- Model of Rust `str::starts_with` on our `String` values. -/
def strStartsWith (s p : String) : Bool :=
  leadsWithChar p.data s.data

/-- The locale enumeration of `rari_types::locale::Locale`. The exhaustive,
wildcard-free `match` in `NoteCard::prefix_for_locale` (bq.rs, lines 11-41)
fixes exactly these nine variants. -/
inductive Locale where
  | enUs | es | fr | ja | ko | ptBr | ru | zhCn | zhTw
deriving DecidableEq, Fintype

/-- The three note-card kinds (bq.rs, lines 4-8). -/
inductive NoteCard where
  | callout | warning | note
deriving DecidableEq, Fintype

/-- Free-text localized prefixes, from `NoteCard::prefix_for_locale`
(bq.rs, lines 11-41). -/
def NoteCard.prefix_for_locale : NoteCard → Locale → String
  | .callout, .enUs => "Callout:"
  | .warning, .enUs => "Warning:"
  | .note, .enUs => "Note:"
  | .callout, .es => "Observación:"
  | .warning, .es => "Advertencia:"
  | .note, .es => "Nota:"
  | .callout, .fr => "Remarque :"
  | .warning, .fr => "Attention :"
  | .note, .fr => "Note :"
  | .callout, .ja => "注目:"
  | .warning, .ja => "警告:"
  | .note, .ja => "メモ:"
  | .callout, .ko => "알림 :"
  | .warning, .ko => "경고 :"
  | .note, .ko => "참고 :"
  | .callout, .ptBr => "Observação:"
  | .warning, .ptBr => "Aviso:"
  | .note, .ptBr => "Nota:"
  | .callout, .ru => "Сноска:"
  | .warning, .ru => "Предупреждение:"
  | .note, .ru => "Примечание:"
  | .callout, .zhCn => "标注："
  | .warning, .zhCn => "警告："
  | .note, .zhCn => "备注："
  | .callout, .zhTw => "标注："
  | .warning, .zhTw => "警告："
  | .note, .zhTw => "备注："

/-- Bracket-encoding localized markers, from `NoteCard::new_prefix_for_locale`
(bq.rs, lines 42-72). -/
def NoteCard.new_prefix_for_locale : NoteCard → Locale → String
  | .callout, .enUs => "[!CALLOUT]"
  | .warning, .enUs => "[!WARNING]"
  | .note, .enUs => "[!NOTE]"
  | .callout, .es => "[!Observación]"
  | .warning, .es => "[!Advertencia]"
  | .note, .es => "[!Nota]"
  | .callout, .fr => "[!Remarque]"
  | .warning, .fr => "[!Attention]"
  | .note, .fr => "[!Note]"
  | .callout, .ja => "[!注目]"
  | .warning, .ja => "[!警告]"
  | .note, .ja => "[!メモ]"
  | .callout, .ko => "[!알림]"
  | .warning, .ko => "[!경고]"
  | .note, .ko => "[!참고]"
  | .callout, .ptBr => "[!Observação]"
  | .warning, .ptBr => "[!Aviso]"
  | .note, .ptBr => "[!Nota]"
  | .callout, .ru => "[!Сноска]"
  | .warning, .ru => "[!Предупреждение]"
  | .note, .ru => "[!Примечание]"
  | .callout, .zhCn => "[!标注]"
  | .warning, .zhCn => "[!警告]"
  | .note, .zhCn => "[!备注]"
  | .callout, .zhTw => "[!标注]"
  | .warning, .zhTw => "[!警告]"
  | .note, .zhTw => "[!备注]"

/-- Node kinds of the AST, reduced to the discriminations the classifier
makes: `strong`, plain `text`, and everything else (which `is_callout` never
distinguishes; `other` stands for the remaining comrak node kinds). -/
inductive NodeValue where
  | document
  | blockQuote
  | paragraph
  | strong
  | emph
  | text (literal : String)
  | other (kind : Nat)
deriving DecidableEq

/-- An AST node: a value and its ordered children (comrak `AstNode`). -/
inductive Node where
  | node (value : NodeValue) (children : List Node)

/-- Value stored at a node. -/
def Node.value : Node → NodeValue
  | .node v _ => v

/-- Children of a node. -/
def Node.children : Node → List Node
  | .node _ c => c

/-- Model of `first_child()`. -/
def Node.firstChild (n : Node) : Option Node :=
  n.children.head?

/-- Removes the first child of the first child of a node (the `detach()` of
bq.rs: both the free-text branches and the bracket branches detach exactly
`block_quote.first_child().first_child()`). -/
def detachFirstGrandChild : Node → Node
  | .node v [] => .node v []
  | .node v (.node cv cc :: rest) => .node v (.node cv cc.tail :: rest)

/-- Model of `is_callout` (bq.rs, lines 75-134). Returns the classification
together with the (possibly mutated) block-quote node; the commented-out
sibling-trimming block of the source is a no-op and is not modelled. -/
def is_callout (block_quote : Node) (locale : Locale) : Option NoteCard × Node :=
  let bracket : Option NoteCard × Node :=
    match block_quote.firstChild.bind Node.firstChild with
    | some marker =>
      match marker.value with
      | .text t =>
        if strStartsWith t (NoteCard.callout.new_prefix_for_locale locale) then
          (some .callout, detachFirstGrandChild block_quote)
        else if strStartsWith t (NoteCard.warning.new_prefix_for_locale locale) then
          (some .warning, detachFirstGrandChild block_quote)
        else if strStartsWith t (NoteCard.note.new_prefix_for_locale locale) then
          (some .note, detachFirstGrandChild block_quote)
        else (none, block_quote)
      | _ => (none, block_quote)
    | none => (none, block_quote)
  match block_quote.firstChild.bind Node.firstChild with
  | some grand_child =>
    if grand_child.value = NodeValue.strong then
      match grand_child.firstChild with
      | some marker =>
        match marker.value with
        | .text t =>
          if strStartsWith t (NoteCard.callout.prefix_for_locale locale) then
            (some .callout, detachFirstGrandChild block_quote)
          else if strStartsWith t (NoteCard.warning.prefix_for_locale locale) then
            (some .warning, block_quote)
          else if strStartsWith t (NoteCard.note.prefix_for_locale locale) then
            (some .note, detachFirstGrandChild block_quote)
          else bracket
        | _ => bracket
      | none => bracket
    else bracket
  | none => bracket

/-- Text read by the free-text checks: the first child of the block quote
must have a first child that is a `Strong` node whose own first child is
plain text. -/
def strongWrappedText (bq : Node) : Option String :=
  match bq.firstChild.bind Node.firstChild with
  | some gc =>
    if gc.value = NodeValue.strong then
      match gc.firstChild with
      | some m =>
        match m.value with
        | .text t => some t
        | _ => none
      | none => none
    else none
  | none => none

/-- Text read by the bracket checks: the first child of the first child of
the block quote, when that node is plain text (no Strong wrapper). -/
def plainFirstText (bq : Node) : Option String :=
  match bq.firstChild.bind Node.firstChild with
  | some m =>
    match m.value with
    | .text t => some t
    | _ => none
  | none => none

/-- Classification cascade written from the specification text: the three
free-text checks in the order Callout, Warning, Note, then the three bracket
checks in the same order; every check is a `starts_with` prefix test and the
first match wins. -/
def classifySpec (bq : Node) (l : Locale) : Option NoteCard :=
  ([(strongWrappedText bq, NoteCard.callout.prefix_for_locale l, NoteCard.callout),
    (strongWrappedText bq, NoteCard.warning.prefix_for_locale l, NoteCard.warning),
    (strongWrappedText bq, NoteCard.note.prefix_for_locale l, NoteCard.note),
    (plainFirstText bq, NoteCard.callout.new_prefix_for_locale l, NoteCard.callout),
    (plainFirstText bq, NoteCard.warning.new_prefix_for_locale l, NoteCard.warning),
    (plainFirstText bq, NoteCard.note.new_prefix_for_locale l, NoteCard.note)]).findSome?
    (fun chk =>
      match chk.1 with
      | some t => if strStartsWith t chk.2.1 then some chk.2.2 else none
      | none => none)

/-- Decides whether the classification takes the free-text Warning branch:
a strong-wrapped first text that does not start with the Callout free-text
marker but does start with the Warning free-text marker. -/
def freeWarningB (bq : Node) (l : Locale) : Bool :=
  match strongWrappedText bq with
  | some t =>
    !(strStartsWith t (NoteCard.callout.prefix_for_locale l)) &&
      strStartsWith t (NoteCard.warning.prefix_for_locale l)
  | none => false

/-- Tree returned by `is_callout` as dictated by the specification: unchanged
when nothing matched or when the free-text Warning branch fired, otherwise
the matched marker node (the first child of the first child) is detached. -/
def calloutSndSpec (bq : Node) (l : Locale) : Node :=
  if classifySpec bq l = none ∨ freeWarningB bq l = true then bq
  else detachFirstGrandChild bq

/-- Candidate anchor for collision counter `uniq`, from
`Anchorizer::anchorize` (html.rs, lines 122-127): the base id itself for
`uniq = 0` and `format!("{}_{}", id, uniq + 1)` afterwards. -/
def anchorCandidate (id : String) (uniq : Nat) : String :=
  if uniq == 0 then id else id ++ "_" ++ natRepr (uniq + 1)

/-- The collision loop of `Anchorizer::anchorize` (html.rs, lines 121-134),
with structural fuel; `anchorize` supplies fuel `seen.length + 1`, which is
proved sufficient below. -/
def anchorLoop (seen : List String) (id : String) : Nat → Nat → String
  | 0, uniq => anchorCandidate id uniq
  | fuel + 1, uniq =>
    let a := anchorCandidate id uniq
    if a ∈ seen then anchorLoop seen id fuel (uniq + 1) else a

/-- Model of `Anchorizer::anchorize` (html.rs, lines 118-137). The state is
the set of consumed anchors, modelled as the list of anchors returned so far
(the `HashSet<String>` of the source); the chosen anchor is inserted. -/
def anchorize (seen : List String) (id : String) : String × List String :=
  let a := anchorLoop seen id (seen.length + 1) 0
  (a, a :: seen)

/-- Runs one anchorizer instance over a sequence of (already normalized) base
slugs and collects the returned anchors in call order. -/
def anchorizeRun : List String → List String → List String
  | _, [] => []
  | seen, id :: rest =>
    (anchorize seen id).1 :: anchorizeRun (anchorize seen id).2 rest

/-- Footnote definition payload used by the back-reference writer
(name and total number of references). -/
structure NodeFootnoteDefinition where
  name : String
  total_references : Nat

/-- Concatenates the images of a character-to-characters map. -/
def charConcatMap (f : Char → List Char) : List Char → List Char
  | [] => []
  | c :: cs => f c ++ charConcatMap f cs

/-- Character-level `escape` on `String` (html.rs, lines 231-251). -/
def escapeS (s : String) : String :=
  String.mk (charConcatMap
    (fun c =>
      if c.toNat == 34 then "&quot;".data
      else if c.toNat == 38 then "&amp;".data
      else if c.toNat == 60 then "&lt;".data
      else if c.toNat == 62 then "&gt;".data
      else [c]) s.data)

/-- Character-level `escape_href` on `String` (html.rs, lines 276-312). -/
def escapeHrefS (s : String) : String :=
  String.mk (charConcatMap
    (fun c =>
      if c.toNat == 38 then "&amp;".data
      else if c.toNat == 60 then "&lt;".data
      else if c.toNat == 62 then "&gt;".data
      else if c.toNat == 34 then "&quot;".data
      else if c.toNat == 39 then "&#x27;".data
      else [c]) s.data)

/-- One back-reference link written by `put_footnote_backref` (html.rs,
lines 1252-1266) for reference number `ref_num`; for `ref_num > 1` a space,
a `-{ref_num}` suffix and a superscript numeral are added. -/
def backrefLink (footnote_ix : Nat) (name : String) (ref_num : Nat) : String :=
  (if 1 < ref_num then " " else "") ++
    "<a href=\"#fnref-" ++ escapeHrefS name ++
    (if 1 < ref_num then "-" ++ natRepr ref_num else "") ++
    "\" class=\"footnote-backref\" data-footnote-backref data-footnote-backref-idx=\"" ++
    natRepr footnote_ix ++ (if 1 < ref_num then "-" ++ natRepr ref_num else "") ++
    "\" aria-label=\"Back to reference " ++
    natRepr footnote_ix ++ (if 1 < ref_num then "-" ++ natRepr ref_num else "") ++
    "\">↩" ++
    (if 1 < ref_num then "<sup class=\"footnote-ref\">" ++ natRepr ref_num ++ "</sup>" else "") ++
    "</a>"

/-- Model of `HtmlFormatter::put_footnote_backref` (html.rs, lines 1242-1268):
given the current `footnote_ix` and `written_footnote_ix` counters it returns
the boolean result, the bytes written, and the new `written_footnote_ix`. -/
def put_footnote_backref (footnote_ix written_footnote_ix : Nat)
    (nfd : NodeFootnoteDefinition) : Bool × String × Nat :=
  if footnote_ix ≤ written_footnote_ix then (false, "", written_footnote_ix)
  else
    (true,
      String.join (((List.range nfd.total_references).map (fun k => k + 1)).map
        (backrefLink footnote_ix nfd.name)),
      footnote_ix)

/-- ASCII whitespace test on characters (Rust `char::is_ascii_whitespace`:
space, tab, LF, FF, CR). -/
def asciiWs (c : Char) : Bool :=
  c.toNat == 32 || c.toNat == 9 || c.toNat == 10 || c.toNat == 12 || c.toNat == 13

/-- Splits into maximal runs of non-whitespace characters (Rust
`str::split_ascii_whitespace`); the accumulator holds the current token
reversed. -/
def wsTokensAux : List Char → List Char → List (List Char)
  | [], cur => if cur.isEmpty then [] else [cur.reverse]
  | c :: cs, cur =>
    if asciiWs c then
      if cur.isEmpty then wsTokensAux cs [] else cur.reverse :: wsTokensAux cs []
    else wsTokensAux cs (c :: cur)

/-- Rust `str::split_ascii_whitespace` on our strings. -/
def split_ascii_whitespace (s : String) : List String :=
  (wsTokensAux s.data []).map String.mk

/-- Rust `str::trim` (the info strings handled here are ASCII, so trimming
ASCII whitespace is faithful). -/
def trimAscii (s : String) : String :=
  String.mk (((s.data.dropWhile asciiWs).reverse.dropWhile asciiWs).reverse)

/-- Rust `str::strip_suffix("-nolint").unwrap_or(s)` (html.rs, line 664). -/
def stripNolintSuffix (s : String) : String :=
  if s.data.reverse.take 7 = "-nolint".data.reverse then
    String.mk (s.data.take (s.data.length - 7))
  else s

/-- Character test for the `first_tag` scan of the code-block path
(html.rs, line 622), which uses the byte-level `ctype::isspace`. -/
def isspaceChar (c : Char) : Bool :=
  isspace c.toNat

/-- Contents of the `pre_attributes` HashMap built by the default
(no-highlighter) code-block path of `format_node` (html.rs, lines 606-694),
for `github_pre_lang = false` and `sourcepos = false`, as a key-value list in
insertion order. With a non-empty info string the `class` attribute first
receives `language-{lang}` and is then rewritten to
`brush: {langs-with-nolint-stripped} notranslate`; `data-meta` carries the
trimmed remainder of the info string when `full_info_string` is on. -/
def codeBlockPreAttrs (full_info_string : Bool) (info : String) : List (String × String) :=
  if info = "" then [("class", "notranslate")]
  else
    let info_str := trimAscii (String.mk (info.data.dropWhile (fun c => !(isspaceChar c))))
    let langs := String.intercalate " " ((split_ascii_whitespace info).map stripNolintSuffix)
    let cls := "brush: " ++ langs ++ " notranslate"
    if full_info_string && !(info_str == "") then [("class", cls), ("data-meta", info_str)]
    else [("class", cls)]

/-- Model of `write_opening_tag` (html.rs, lines 316-332) at the string
level: the tag name, then one ` key="escaped value"` group per attribute in
the order of the iterator passed in, then `>`. -/
def write_opening_tag (tag : String) (attributes : List (String × String)) : String :=
  "<" ++ tag ++
    String.join (attributes.map (fun av => " " ++ av.1 ++ "=\"" ++ escapeS av.2 ++ "\"")) ++ ">"

/-- Bytes emitted for a default-path code block once an iteration order for
the attribute HashMap is fixed: the `<pre ...>` opening tag, the escaped
literal, and `</pre>` plus a newline (html.rs, lines 677-679). -/
def renderCodeBlockPre (attrs : List (String × String)) (literal : String) : String :=
  write_opening_tag "pre" attrs ++ escapeS literal ++ "</pre>\n"

/-- Relation between a code block and a possible output of the default path:
the source iterates a `std::collections::HashMap`, whose iteration order is
unspecified (it depends on a per-map random seed), so any enumeration order
of the attribute map can be observed. -/
def CodeBlockPreOutput (full_info_string : Bool) (info literal out : String) : Prop :=
  ∃ order : List (String × String),
    order.Perm (codeBlockPreAttrs full_info_string info) ∧
    out = renderCodeBlockPre order literal

/-- The four entities `escape` may insert. -/
def escapeEntities : List (List Nat) :=
  [[38, 113, 117, 111, 116, 59], [38, 97, 109, 112, 59],
   [38, 108, 116, 59], [38, 103, 116, 59]]

/-- Safety property of an escaped byte stream: the bytes of `"`, `<` and `>`
do not occur at all, and every occurrence of `&` (byte 38) is the start of
one of the four entities. -/
def EscapedSafe (l : List Nat) : Prop :=
  34 ∉ l ∧ 60 ∉ l ∧ 62 ∉ l ∧
  ∀ i, l.get? i = some 38 → ∃ t, t ∈ escapeEntities ∧ (l.drop i).take t.length = t

/-- Specification of the byte allowed to follow a denylisted tag name:
a whitespace byte, `>`, or the two bytes `/>`. -/
def FollowerOk (rest : List Nat) : Prop :=
  ∃ c tail, rest = c :: tail ∧
    (isspace c = true ∨ c = 62 ∨ (c = 47 ∧ tail.head? = some 62))

/-- Specification shape of a denylisted raw-HTML fragment: `<`, an optional
`/`, then bytes that ASCII-lowercase to one of the nine denylisted names,
then `rest`. -/
def TagfilterHit (lit : List Nat) (rest : List Nat) : Prop :=
  ∃ (slash : Bool) (pre : List Nat) (t : List Nat),
    t ∈ TAGFILTER_BLACKLIST ∧ pre.map asciiLower = t ∧
    lit = 60 :: ((if slash then [47] else []) ++ pre ++ rest)

/-- Decimal value of a most-significant-first digit character list
(used to prove that the decimal printer is injective). -/
def digitsVal (l : List Char) : Nat :=
  l.foldl (fun a c => 10 * a + (c.toNat - 48)) 0

/-- Example block quote whose first paragraph starts with a strong node whose
text carries the en-US free-text Warning marker. -/
def exWarningBq : Node :=
  Node.node .blockQuote
    [Node.node .paragraph
      [Node.node .strong [Node.node (.text "Warning: careful") []],
       Node.node (.text " stay safe") []]]

/-- Example block quote that is not a note card. -/
def exPlainBq : Node :=
  Node.node .blockQuote
    [Node.node .paragraph [Node.node (.text "hello world") []]]

/-- Expected back-reference block for a footnote definition with three
references, written from the specification: three links whose
`data-footnote-backref-idx` suffixes are empty, `-2` and `-3` in that order,
with a superscript numeral only on the second and third link; `E` is the
href-escaped footnote name and `I` the decimal footnote index. -/
def expectedBackrefs (E I : String) : String :=
  ("<a href=\"#fnref-" ++ E ++
    "\" class=\"footnote-backref\" data-footnote-backref data-footnote-backref-idx=\"" ++
    I ++ "\" aria-label=\"Back to reference " ++ I ++ "\">↩" ++ "</a>") ++
  (" " ++ "<a href=\"#fnref-" ++ E ++ "-2" ++
    "\" class=\"footnote-backref\" data-footnote-backref data-footnote-backref-idx=\"" ++
    I ++ "-2" ++ "\" aria-label=\"Back to reference " ++ I ++ "-2" ++ "\">↩" ++
    "<sup class=\"footnote-ref\">2</sup>" ++ "</a>") ++
  (" " ++ "<a href=\"#fnref-" ++ E ++ "-3" ++
    "\" class=\"footnote-backref\" data-footnote-backref data-footnote-backref-idx=\"" ++
    I ++ "-3" ++ "\" aria-label=\"Back to reference " ++ I ++ "-3" ++ "\">↩" ++
    "<sup class=\"footnote-ref\">3</sup>" ++ "</a>")

/-! ## Lemmas and theorems -/

theorem escape_append (xs ys : List Nat) :
    escape (xs ++ ys) = escape xs ++ escape ys := by
  induction xs with
  | nil => simp [escape]
  | cons b rest ih => simp [escape, ih, List.append_assoc]

theorem escape_href_append (xs ys : List Nat) :
    escape_href (xs ++ ys) = escape_href xs ++ escape_href ys := by
  induction xs with
  | nil => simp [escape_href]
  | cons b rest ih =>
    simp only [List.cons_append, escape_href]
    cases hrefEntity b <;> simp [ih, List.append_assoc]

theorem escapedSafe_nil : EscapedSafe [] := by
  refine ⟨by simp, by simp, by simp, ?_⟩
  intro i h
  simp [List.get?] at h

theorem escapedSafe_cons (b : Nat) (l : List Nat) (hb : htmlUnsafe b = false)
    (hl : EscapedSafe l) : EscapedSafe (b :: l) := by
  have h34 : b ≠ 34 := by intro e; subst e; simp [htmlUnsafe] at hb
  have h38 : b ≠ 38 := by intro e; subst e; simp [htmlUnsafe] at hb
  have h60 : b ≠ 60 := by intro e; subst e; simp [htmlUnsafe] at hb
  have h62 : b ≠ 62 := by intro e; subst e; simp [htmlUnsafe] at hb
  obtain ⟨m34, m60, m62, hamp⟩ := hl
  refine ⟨?_, ?_, ?_, ?_⟩
  · simp [List.mem_cons]; exact ⟨fun h => h34 h.symm, m34⟩
  · simp [List.mem_cons]; exact ⟨fun h => h60 h.symm, m60⟩
  · simp [List.mem_cons]; exact ⟨fun h => h62 h.symm, m62⟩
  · intro i hi
    cases i with
    | zero => simp [List.get?] at hi; exact absurd hi h38
    | succ k =>
      simp only [List.get?] at hi
      obtain ⟨t, ht, htk⟩ := hamp k hi
      exact ⟨t, ht, by simpa [List.drop_succ_cons] using htk⟩

theorem escapedSafe_cons38 (m : List Nat) (hm : EscapedSafe m)
    (hstart : ∃ t, t ∈ escapeEntities ∧ (38 :: m).take t.length = t) :
    EscapedSafe (38 :: m) := by
  obtain ⟨m34, m60, m62, hamp⟩ := hm
  refine ⟨?_, ?_, ?_, ?_⟩
  · simp [List.mem_cons, m34]
  · simp [List.mem_cons, m60]
  · simp [List.mem_cons, m62]
  · intro i hi
    cases i with
    | zero => simpa using hstart
    | succ k =>
      simp only [List.get?] at hi
      obtain ⟨t, ht, htk⟩ := hamp k hi
      exact ⟨t, ht, by simpa [List.drop_succ_cons] using htk⟩

theorem escapedSafe_entity (e : List Nat) (l : List Nat)
    (he : e ∈ escapeEntities) (hl : EscapedSafe l) : EscapedSafe (e ++ l) := by
  simp only [escapeEntities, List.mem_cons, List.not_mem_nil, or_false] at he
  rcases he with rfl | rfl | rfl | rfl
  · refine escapedSafe_cons38 _ ?_
      ⟨[38, 113, 117, 111, 116, 59], by decide, rfl⟩
    exact escapedSafe_cons _ _ (by decide) (escapedSafe_cons _ _ (by decide)
      (escapedSafe_cons _ _ (by decide) (escapedSafe_cons _ _ (by decide)
        (escapedSafe_cons _ _ (by decide) hl))))
  · refine escapedSafe_cons38 _ ?_
      ⟨[38, 97, 109, 112, 59], by decide, rfl⟩
    exact escapedSafe_cons _ _ (by decide) (escapedSafe_cons _ _ (by decide)
      (escapedSafe_cons _ _ (by decide) (escapedSafe_cons _ _ (by decide) hl)))
  · refine escapedSafe_cons38 _ ?_
      ⟨[38, 108, 116, 59], by decide, rfl⟩
    exact escapedSafe_cons _ _ (by decide) (escapedSafe_cons _ _ (by decide)
      (escapedSafe_cons _ _ (by decide) hl))
  · refine escapedSafe_cons38 _ ?_
      ⟨[38, 103, 116, 59], by decide, rfl⟩
    exact escapedSafe_cons _ _ (by decide) (escapedSafe_cons _ _ (by decide)
      (escapedSafe_cons _ _ (by decide) hl))

theorem escape_escapedSafe (buf : List Nat) : EscapedSafe (escape buf) := by
  induction buf with
  | nil => exact escapedSafe_nil
  | cons b rest ih =>
    by_cases h : htmlUnsafe b = true
    · have hb : b = 34 ∨ b = 38 ∨ b = 60 ∨ b = 62 := by
        have h2 := h
        simp [htmlUnsafe] at h2
        tauto
      simp only [escape, h, if_pos]
      rcases hb with rfl | rfl | rfl | rfl <;>
        exact escapedSafe_entity _ _ (by simp [escapeEntity, escapeEntities]) ih
    · have h2 : htmlUnsafe b = false := by simpa using h
      simpa [escape, h2] using escapedSafe_cons b (escape rest) h2 ih

/-- C6: `escape` copies its input byte-for-byte except that each of the four
bytes `"`, `&`, `<`, `>` is replaced by its named entity; no other byte is
altered, and none of the four bytes appears unescaped in the output (`"`,
`<`, `>` never occur, `&` only as the start of an inserted entity). -/
theorem escape_spec (buf xs ys : List Nat) (b : Nat)
    (h : b ≠ 34 ∧ b ≠ 38 ∧ b ≠ 60 ∧ b ≠ 62) :
    escape (xs ++ ys) = escape xs ++ escape ys ∧
    escape [b] = [b] ∧
    escape [34] = [38, 113, 117, 111, 116, 59] ∧
    escape [38] = [38, 97, 109, 112, 59] ∧
    escape [60] = [38, 108, 116, 59] ∧
    escape [62] = [38, 103, 116, 59] ∧
    EscapedSafe (escape buf) := by
  obtain ⟨h34, h38, h60, h62⟩ := h
  refine ⟨escape_append xs ys, ?_, by decide, by decide, by decide, by decide,
    escape_escapedSafe buf⟩
  have hb : htmlUnsafe b = false := by
    simp [htmlUnsafe, h34, h38, h60, h62]
  simp [escape, hb]

/-- Closed instance of `escape_spec` at concrete inputs. -/
theorem escape_spec_witness :
    escape ([60] ++ [97, 38]) = escape [60] ++ escape [97, 38] ∧
    escape [97] = [97] ∧
    escape [34] = [38, 113, 117, 111, 116, 59] ∧
    escape [38] = [38, 97, 109, 112, 59] ∧
    escape [60] = [38, 108, 116, 59] ∧
    escape [62] = [38, 103, 116, 59] ∧
    EscapedSafe (escape [60, 97, 38]) :=
  escape_spec [60, 97, 38] [60] [97, 38] 97 (by decide)

/-- C7: `escape_href` escapes exactly the five bytes `&`, `<`, `>`, `"` and
the apostrophe (to `&amp;`, `&lt;`, `&gt;`, `&quot;`, `&#x27;`) and passes
every other byte through unchanged, including `%`; in particular the byte
strings of `a%20b` and `a&b` render as `a%20b` and `a&amp;b`. -/
theorem escape_href_spec (xs ys : List Nat) (b : Nat)
    (h : b ≠ 38 ∧ b ≠ 60 ∧ b ≠ 62 ∧ b ≠ 34 ∧ b ≠ 39) :
    escape_href (xs ++ ys) = escape_href xs ++ escape_href ys ∧
    escape_href [b] = [b] ∧
    escape_href [38] = [38, 97, 109, 112, 59] ∧
    escape_href [60] = [38, 108, 116, 59] ∧
    escape_href [62] = [38, 103, 116, 59] ∧
    escape_href [34] = [38, 113, 117, 111, 116, 59] ∧
    escape_href [39] = [38, 35, 120, 50, 55, 59] ∧
    escape_href [37] = [37] ∧
    escape_href [97, 37, 50, 48, 98] = [97, 37, 50, 48, 98] ∧
    escape_href [97, 38, 98] = [97, 38, 97, 109, 112, 59, 98] := by
  obtain ⟨h38, h60, h62, h34, h39⟩ := h
  refine ⟨escape_href_append xs ys, ?_, by decide, by decide, by decide, by decide,
    by decide, by decide, by decide, by decide⟩
  have hb : hrefEntity b = none := by
    simp [hrefEntity, h38, h60, h62, h34, h39]
  simp [escape_href, hb]

/-- C5 counterexample: the locale enumeration has exactly 9 variants (fixed
by the exhaustive, wildcard-free match of the source), so each prefix
encoding comprises 27 fixed strings, not 30 as claimed. -/
theorem notecard_locale_count_counterexample :
    Fintype.card Locale = 9 ∧ Fintype.card (NoteCard × Locale) = 27 ∧
    ¬ Fintype.card (NoteCard × Locale) = 30 := by decide

/-- C5 (amended): `prefix_for_locale` and `new_prefix_for_locale` are total
over all 27 (kind, locale) pairs — 3 kinds times the 9 supported locales —
each pair mapped to its own fixed non-empty string, with no fallback or
default-locale substitution. -/
theorem notecard_prefix_total :
    Fintype.card (NoteCard × Locale) = 27 ∧
    ∀ (k : NoteCard) (l : Locale),
      NoteCard.prefix_for_locale k l ≠ "" ∧ NoteCard.new_prefix_for_locale k l ≠ "" := by
  decide

/-- C1: the output of the default code-block path is not a function of the
AST, options and locale alone. The two-attribute `pre` map built for the
info string `js x` under `full_info_string` admits two iteration orders
(the source iterates a `std::collections::HashMap`, whose order is
unspecified and varies between freshly created maps), and the two orders
yield different byte streams, so two renders with fresh formatter state are
not guaranteed to be byte-identical. -/
theorem codeblock_attr_order_dependent :
    CodeBlockPreOutput true "js x" "y"
      (renderCodeBlockPre
        [("class", "brush: js x notranslate"), ("data-meta", "x")] "y") ∧
    CodeBlockPreOutput true "js x" "y"
      (renderCodeBlockPre
        [("data-meta", "x"), ("class", "brush: js x notranslate")] "y") ∧
    renderCodeBlockPre [("class", "brush: js x notranslate"), ("data-meta", "x")] "y" ≠
      renderCodeBlockPre [("data-meta", "x"), ("class", "brush: js x notranslate")] "y" := by
  refine ⟨⟨[("class", "brush: js x notranslate"), ("data-meta", "x")], by decide, rfl⟩,
    ⟨[("data-meta", "x"), ("class", "brush: js x notranslate")], by decide, rfl⟩, by decide⟩

/-- Closed instance of `escape_href_spec` at concrete inputs. -/
theorem escape_href_spec_witness :
    escape_href ([97] ++ [38, 98]) = escape_href [97] ++ escape_href [38, 98] ∧
    escape_href [120] = [120] ∧
    escape_href [38] = [38, 97, 109, 112, 59] ∧
    escape_href [60] = [38, 108, 116, 59] ∧
    escape_href [62] = [38, 103, 116, 59] ∧
    escape_href [34] = [38, 113, 117, 111, 116, 59] ∧
    escape_href [39] = [38, 35, 120, 50, 55, 59] ∧
    escape_href [37] = [37] ∧
    escape_href [97, 37, 50, 48, 98] = [97, 37, 50, 48, 98] ∧
    escape_href [97, 38, 98] = [97, 38, 97, 109, 112, 59, 98] :=
  escape_href_spec [97] [38, 98] 120 (by decide)

theorem string_data_ext (s t : String) (h : s.data = t.data) : s = t := by
  cases s; cases t; exact congrArg String.mk h

/-- C9: when a footnote definition with `total_references = 3` reaches its
exit with the written-footnote counter behind the footnote counter, exactly
three back-reference links are written, with idx suffixes empty, `-2`, `-3`
in that order and superscript numerals 2 and 3 only on the second and third
link, and the written counter catches up; a second request for the same
footnote index (counter already caught up) writes nothing. -/
theorem put_footnote_backref_spec (name : String) (ix w w2 : Nat)
    (h : w < ix) (h2 : ix ≤ w2) :
    put_footnote_backref ix w ⟨name, 3⟩ =
      (true, expectedBackrefs (escapeHrefS name) (natRepr ix), ix) ∧
    put_footnote_backref ix w2 ⟨name, 3⟩ = (false, "", w2) := by
  constructor
  · have hn : ¬ ix ≤ w := Nat.not_le.mpr h
    have hlist : ((List.range 3).map (fun k => k + 1)).map (backrefLink ix name) =
        [backrefLink ix name 1, backrefLink ix name 2, backrefLink ix name 3] := rfl
    have hjoin : ∀ a b c : String, String.join [a, b, c] = "" ++ a ++ b ++ c :=
      fun a b c => rfl
    simp only [put_footnote_backref, if_neg hn, hlist, hjoin]
    refine congrArg (fun s => ((true : Bool), s, ix)) ?_
    have e2 : ("-" ++ natRepr 2 : String) = "-2" := rfl
    have e3 : ("-" ++ natRepr 3 : String) = "-3" := rfl
    have s2 : ("<sup class=\"footnote-ref\">" ++ natRepr 2 ++ "</sup>" : String) =
        "<sup class=\"footnote-ref\">2</sup>" := rfl
    have s3 : ("<sup class=\"footnote-ref\">" ++ natRepr 3 ++ "</sup>" : String) =
        "<sup class=\"footnote-ref\">3</sup>" := rfl
    have l1 : (1 < 1) = False := by simp
    have l2 : (1 < 2) = True := by simp
    have l3 : (1 < 3) = True := by simp
    simp only [backrefLink, l1, l2, l3, if_true, if_false, e2, e3, s2, s3]
    simp only [expectedBackrefs, String.append_assoc, String.empty_append,
      String.append_empty]
  · simp [put_footnote_backref, h2]

/-- Closed instance of `put_footnote_backref_spec` at a concrete state. -/
theorem put_footnote_backref_spec_witness :
    put_footnote_backref 1 0 ⟨"a", 3⟩ =
      (true, expectedBackrefs (escapeHrefS "a") (natRepr 1), 1) ∧
    put_footnote_backref 1 1 ⟨"a", 3⟩ = (false, "", 1) :=
  put_footnote_backref_spec "a" 1 0 1 (by decide) (by decide)

theorem is_callout_eq (bq : Node) (l : Locale) :
    is_callout bq l = (classifySpec bq l, calloutSndSpec bq l) := by
  obtain ⟨v, cs⟩ := bq
  cases cs with
  | nil =>
    simp [is_callout, classifySpec, calloutSndSpec, strongWrappedText, plainFirstText,
      freeWarningB, Node.firstChild, Node.children, Node.value, detachFirstGrandChild,
      Option.bind, List.findSome?, List.head?]
  | cons c rest =>
    obtain ⟨cv, cc⟩ := c
    cases cc with
    | nil =>
      simp [is_callout, classifySpec, calloutSndSpec, strongWrappedText, plainFirstText,
        freeWarningB, Node.firstChild, Node.children, Node.value, detachFirstGrandChild,
        Option.bind, List.findSome?, List.head?]
    | cons gc gcs =>
      obtain ⟨gv, gcc⟩ := gc
      cases gv with
      | strong =>
        cases gcc with
        | nil =>
          simp [is_callout, classifySpec, calloutSndSpec, strongWrappedText, plainFirstText,
            freeWarningB, Node.firstChild, Node.children, Node.value, detachFirstGrandChild,
            Option.bind, List.findSome?, List.head?]
        | cons m ms =>
          obtain ⟨mv, mc⟩ := m
          cases mv with
          | text t =>
            cases hc : strStartsWith t (NoteCard.callout.prefix_for_locale l) <;>
            cases hw : strStartsWith t (NoteCard.warning.prefix_for_locale l) <;>
            cases hn : strStartsWith t (NoteCard.note.prefix_for_locale l) <;>
              simp [is_callout, classifySpec, calloutSndSpec, strongWrappedText,
                plainFirstText, freeWarningB, Node.firstChild, Node.children, Node.value,
                detachFirstGrandChild, Option.bind, List.findSome?, List.head?, hc, hw, hn]
          | document =>
            simp [is_callout, classifySpec, calloutSndSpec, strongWrappedText,
              plainFirstText, freeWarningB, Node.firstChild, Node.children, Node.value,
              detachFirstGrandChild, Option.bind, List.findSome?, List.head?]
          | blockQuote =>
            simp [is_callout, classifySpec, calloutSndSpec, strongWrappedText,
              plainFirstText, freeWarningB, Node.firstChild, Node.children, Node.value,
              detachFirstGrandChild, Option.bind, List.findSome?, List.head?]
          | paragraph =>
            simp [is_callout, classifySpec, calloutSndSpec, strongWrappedText,
              plainFirstText, freeWarningB, Node.firstChild, Node.children, Node.value,
              detachFirstGrandChild, Option.bind, List.findSome?, List.head?]
          | strong =>
            simp [is_callout, classifySpec, calloutSndSpec, strongWrappedText,
              plainFirstText, freeWarningB, Node.firstChild, Node.children, Node.value,
              detachFirstGrandChild, Option.bind, List.findSome?, List.head?]
          | emph =>
            simp [is_callout, classifySpec, calloutSndSpec, strongWrappedText,
              plainFirstText, freeWarningB, Node.firstChild, Node.children, Node.value,
              detachFirstGrandChild, Option.bind, List.findSome?, List.head?]
          | other k =>
            simp [is_callout, classifySpec, calloutSndSpec, strongWrappedText,
              plainFirstText, freeWarningB, Node.firstChild, Node.children, Node.value,
              detachFirstGrandChild, Option.bind, List.findSome?, List.head?]
      | text t =>
        cases hc : strStartsWith t (NoteCard.callout.new_prefix_for_locale l) <;>
        cases hw : strStartsWith t (NoteCard.warning.new_prefix_for_locale l) <;>
        cases hn : strStartsWith t (NoteCard.note.new_prefix_for_locale l) <;>
          simp [is_callout, classifySpec, calloutSndSpec, strongWrappedText,
            plainFirstText, freeWarningB, Node.firstChild, Node.children, Node.value,
            detachFirstGrandChild, Option.bind, List.findSome?, List.head?, hc, hw, hn]
      | document =>
        simp [is_callout, classifySpec, calloutSndSpec, strongWrappedText, plainFirstText,
          freeWarningB, Node.firstChild, Node.children, Node.value, detachFirstGrandChild,
          Option.bind, List.findSome?, List.head?]
      | blockQuote =>
        simp [is_callout, classifySpec, calloutSndSpec, strongWrappedText, plainFirstText,
          freeWarningB, Node.firstChild, Node.children, Node.value, detachFirstGrandChild,
          Option.bind, List.findSome?, List.head?]
      | paragraph =>
        simp [is_callout, classifySpec, calloutSndSpec, strongWrappedText, plainFirstText,
          freeWarningB, Node.firstChild, Node.children, Node.value, detachFirstGrandChild,
          Option.bind, List.findSome?, List.head?]
      | emph =>
        simp [is_callout, classifySpec, calloutSndSpec, strongWrappedText, plainFirstText,
          freeWarningB, Node.firstChild, Node.children, Node.value, detachFirstGrandChild,
          Option.bind, List.findSome?, List.head?]
      | other k =>
        simp [is_callout, classifySpec, calloutSndSpec, strongWrappedText, plainFirstText,
          freeWarningB, Node.firstChild, Node.children, Node.value, detachFirstGrandChild,
          Option.bind, List.findSome?, List.head?]

/-- C3: the classifier checks run in exactly the specified order with
first-match-wins semantics: the three free-text prefixes (Callout, Warning,
Note) are tested against the strong-wrapped first text, then the three
bracket markers against the plain first text, every test being a
`starts_with` prefix match, and `none` is returned when nothing matches. -/
theorem is_callout_order_spec (bq : Node) (l : Locale) :
    (is_callout bq l).1 = classifySpec bq l := by
  rw [is_callout_eq]

/-- C4: the free-text Warning branch classifies without touching the tree,
while every other successful classification (free-text Callout and Note,
and all three bracket branches) detaches the first child of the block
quote's first child (the Strong node, respectively the matched text node). -/
theorem is_callout_warning_frame (bq : Node) (l : Locale) :
    (is_callout bq l).2 =
      (if (is_callout bq l).1 = none ∨ freeWarningB bq l = true then bq
       else detachFirstGrandChild bq) ∧
    (freeWarningB bq l = true → is_callout bq l = (some NoteCard.warning, bq)) := by
  constructor
  · rw [is_callout_eq]
    rfl
  · intro hfw
    rw [is_callout_eq]
    rcases hsw : strongWrappedText bq with _ | t
    · simp only [freeWarningB, hsw] at hfw
      cases hfw
    · simp only [freeWarningB, hsw, Bool.and_eq_true, Bool.not_eq_true'] at hfw
      obtain ⟨hc, hw⟩ := hfw
      have hcl : classifySpec bq l = some NoteCard.warning := by
        simp [classifySpec, List.findSome?, hsw, hc, hw]
      have hfwb : freeWarningB bq l = true := by
        simp [freeWarningB, hsw, hc, hw]
      simp [hcl, calloutSndSpec, hfwb]

/-- Closed instance of `is_callout_warning_frame` on a concrete warning
block quote: the tree is returned unchanged. -/
theorem is_callout_warning_frame_witness :
    is_callout exWarningBq Locale.enUs = (some NoteCard.warning, exWarningBq) :=
  (is_callout_warning_frame exWarningBq Locale.enUs).2 (by decide)

/-- C10: when the classifier reports that a block quote is not a note card,
the tree is left completely unmodified. -/
theorem is_callout_none_no_mutation (bq : Node) (l : Locale)
    (h : (is_callout bq l).1 = none) : (is_callout bq l).2 = bq := by
  rw [is_callout_eq] at h ⊢
  simp only at h
  simp [calloutSndSpec, h]

/-- Closed instance of `is_callout_none_no_mutation` on a concrete ordinary
block quote. -/
theorem is_callout_none_no_mutation_witness :
    (is_callout exPlainBq Locale.enUs).2 = exPlainBq :=
  is_callout_none_no_mutation exPlainBq Locale.enUs (by decide)

theorem natReprCore_acc (n : Nat) : ∀ fuel acc, n < fuel →
    natReprCore fuel n acc = natReprCore (n + 1) n [] ++ acc := by
  induction n using Nat.strong_induction_on with
  | _ n ih =>
    intro fuel acc hf
    cases fuel with
    | zero => omega
    | succ f =>
      by_cases h10 : n < 10
      · simp [natReprCore, h10]
      · have hd : n / 10 < n := Nat.div_lt_self (by omega) (by omega)
        have hf2 : n / 10 < f := by omega
        have hfn : n / 10 < n := hd
        simp only [natReprCore, if_neg h10]
        rw [ih (n / 10) hd f _ hf2, ih (n / 10) hd n _ hfn]
        simp [List.append_assoc]

theorem digit_char_toNat : ∀ m, m < 10 → (Char.ofNat (48 + m)).toNat = 48 + m := by
  decide

theorem digitsVal_concat (l : List Char) (d : Char) :
    digitsVal (l ++ [d]) = 10 * digitsVal l + (d.toNat - 48) := by
  simp [digitsVal, List.foldl_append, List.foldl]

theorem digitsVal_natRepr (n : Nat) : digitsVal (natReprCore (n + 1) n []) = n := by
  induction n using Nat.strong_induction_on with
  | _ n ih =>
    by_cases h10 : n < 10
    · have hm : n % 10 = n := Nat.mod_eq_of_lt h10
      simp [natReprCore, h10, digitsVal, List.foldl, hm, digit_char_toNat n h10]
    · have hd : n / 10 < n := Nat.div_lt_self (by omega) (by omega)
      have hmod : n % 10 < 10 := Nat.mod_lt n (by omega)
      have step1 : natReprCore (n + 1) n [] =
          natReprCore (n / 10 + 1) (n / 10) [] ++ [Char.ofNat (48 + n % 10)] := by
        simp only [natReprCore, if_neg h10]
        exact natReprCore_acc (n / 10) n _ hd
      rw [step1, digitsVal_concat, ih (n / 10) hd, digit_char_toNat _ hmod]
      omega

theorem natRepr_inj (m n : Nat) (h : natRepr m = natRepr n) : m = n := by
  have hdata : natReprCore (m + 1) m [] = natReprCore (n + 1) n [] :=
    congrArg String.data h
  have := congrArg digitsVal hdata
  rwa [digitsVal_natRepr, digitsVal_natRepr] at this

theorem natReprCore_ne_nil (n : Nat) : natReprCore (n + 1) n [] ≠ [] := by
  by_cases h10 : n < 10
  · simp [natReprCore, h10]
  · have hd : n / 10 < n := Nat.div_lt_self (by omega) (by omega)
    simp only [natReprCore, if_neg h10]
    rw [natReprCore_acc (n / 10) n _ hd]
    simp

theorem natRepr_data_pos (n : Nat) : 0 < (natRepr n).data.length := by
  have hd : (natRepr n).data = natReprCore (n + 1) n [] := rfl
  rw [hd]
  exact List.length_pos.mpr (natReprCore_ne_nil n)

theorem anchorCandidate_succ (id : String) (b : Nat) :
    anchorCandidate id (b + 1) = id ++ "_" ++ natRepr (b + 2) := by
  simp [anchorCandidate]

theorem anchorCandidate_inj (id : String) (u v : Nat)
    (h : anchorCandidate id u = anchorCandidate id v) : u = v := by
  cases u with
  | zero =>
    cases v with
    | zero => rfl
    | succ b =>
      exfalso
      rw [anchorCandidate_succ] at h
      have hzero : anchorCandidate id 0 = id := by simp [anchorCandidate]
      rw [hzero] at h
      have hd := congrArg String.data h
      rw [String.data_append, String.data_append] at hd
      have hlen := congrArg List.length hd
      rw [List.length_append, List.length_append] at hlen
      have h1 : ("_" : String).data.length = 1 := rfl
      have hpos := natRepr_data_pos (b + 2)
      omega
  | succ a =>
    cases v with
    | zero =>
      exfalso
      rw [anchorCandidate_succ] at h
      have hzero : anchorCandidate id 0 = id := by simp [anchorCandidate]
      rw [hzero] at h
      have hd := congrArg String.data h
      rw [String.data_append, String.data_append] at hd
      have hlen := congrArg List.length hd
      rw [List.length_append, List.length_append] at hlen
      have h1 : ("_" : String).data.length = 1 := rfl
      have hpos := natRepr_data_pos (a + 2)
      omega
    | succ b =>
      rw [anchorCandidate_succ, anchorCandidate_succ] at h
      have hd := congrArg String.data h
      rw [String.data_append, String.data_append, String.data_append,
        String.data_append, List.append_assoc, List.append_assoc] at hd
      have hr : (natRepr (a + 2)).data = (natRepr (b + 2)).data :=
        List.append_cancel_left (List.append_cancel_left hd)
      have heq : natRepr (a + 2) = natRepr (b + 2) := string_data_ext _ _ hr
      have := natRepr_inj _ _ heq
      omega

theorem anchorLoop_eq (seen : List String) (id : String) (u0 : Nat) :
    ∀ fuel uniq, uniq ≤ u0 → u0 - uniq < fuel →
    (∀ v, uniq ≤ v → v < u0 → anchorCandidate id v ∈ seen) →
    anchorCandidate id u0 ∉ seen →
    anchorLoop seen id fuel uniq = anchorCandidate id u0 := by
  intro fuel
  induction fuel with
  | zero => intro uniq h1 h2 h3 h4; omega
  | succ f ih =>
    intro uniq h1 h2 h3 h4
    by_cases he : uniq = u0
    · subst he
      simp [anchorLoop, h4]
    · have hlt : uniq < u0 := lt_of_le_of_ne h1 he
      have hmem : anchorCandidate id uniq ∈ seen := h3 uniq le_rfl hlt
      simp only [anchorLoop, hmem, if_pos]
      exact ih (uniq + 1) hlt (by omega) (fun v hv1 hv2 => h3 v (by omega) hv2) h4

theorem anchor_exists_fresh (seen : List String) (id : String) :
    ∃ u0, u0 ≤ seen.length ∧ anchorCandidate id u0 ∉ seen ∧
      ∀ v, v < u0 → anchorCandidate id v ∈ seen := by
  have hex : ∃ u, anchorCandidate id u ∉ seen ∧ u ≤ seen.length := by
    by_contra hno
    push_neg at hno
    have hall : ∀ u, u ≤ seen.length → anchorCandidate id u ∈ seen := by
      intro u hu
      by_contra hmem
      exact absurd (hno u hmem) (by omega)
    have hnd : ((List.range (seen.length + 1)).map (anchorCandidate id)).Nodup :=
      List.Nodup.map (fun a b hab => anchorCandidate_inj id a b hab) (List.nodup_range _)
    have hsub : ∀ x ∈ (List.range (seen.length + 1)).map (anchorCandidate id), x ∈ seen := by
      intro x hx
      obtain ⟨u, hu, rfl⟩ := List.mem_map.mp hx
      exact hall u (by simpa [List.mem_range] using Nat.lt_succ_iff.mp (List.mem_range.mp hu))
    have hlen : ((List.range (seen.length + 1)).map (anchorCandidate id)).length =
        seen.length + 1 := by simp
    have hcard1 : ((List.range (seen.length + 1)).map (anchorCandidate id)).toFinset.card =
        seen.length + 1 := by rw [List.toFinset_card_of_nodup hnd, hlen]
    have hcard2 : ((List.range (seen.length + 1)).map (anchorCandidate id)).toFinset.card ≤
        seen.toFinset.card := by
      apply Finset.card_le_card
      intro x hx
      exact List.mem_toFinset.mpr (hsub x (List.mem_toFinset.mp hx))
    have hcard3 : seen.toFinset.card ≤ seen.length := seen.toFinset_card_le
    omega
  have hex2 : ∃ u, anchorCandidate id u ∉ seen := ⟨hex.choose, hex.choose_spec.1⟩
  refine ⟨Nat.find hex2, ?_, Nat.find_spec hex2, ?_⟩
  · exact le_trans (Nat.find_min' hex2 hex.choose_spec.1) hex.choose_spec.2
  · intro v hv
    have := Nat.find_min hex2 hv
    exact of_not_not this

theorem anchorize_fst (seen : List String) (id : String) :
    ∃ u0, u0 ≤ seen.length ∧ anchorCandidate id u0 ∉ seen ∧
      (∀ v, v < u0 → anchorCandidate id v ∈ seen) ∧
      anchorize seen id = (anchorCandidate id u0, anchorCandidate id u0 :: seen) := by
  obtain ⟨u0, hle, hnm, hmem⟩ := anchor_exists_fresh seen id
  refine ⟨u0, hle, hnm, hmem, ?_⟩
  have hloop : anchorLoop seen id (seen.length + 1) 0 = anchorCandidate id u0 :=
    anchorLoop_eq seen id u0 (seen.length + 1) 0 (Nat.zero_le _) (by omega)
      (fun v _ hv => hmem v hv) hnm
  simp [anchorize, hloop]

theorem anchorize_fst_not_mem (seen : List String) (id : String) :
    (anchorize seen id).1 ∉ seen := by
  obtain ⟨u0, _, hnm, _, heq⟩ := anchorize_fst seen id
  rw [heq]
  exact hnm

theorem anchorizeRun_replicate (id : String) : ∀ (m j : Nat),
    anchorizeRun (((List.range j).map (anchorCandidate id)).reverse)
        (List.replicate m id) =
      (List.range' j m).map (anchorCandidate id) := by
  intro m
  induction m with
  | zero => intro j; simp [anchorizeRun, List.replicate]
  | succ m ih =>
    intro j
    have hmem : ∀ v, v < j →
        anchorCandidate id v ∈ ((List.range j).map (anchorCandidate id)).reverse := by
      intro v hv
      simp only [List.mem_reverse, List.mem_map]
      exact ⟨v, List.mem_range.mpr hv, rfl⟩
    have hnm : anchorCandidate id j ∉ ((List.range j).map (anchorCandidate id)).reverse := by
      simp only [List.mem_reverse, List.mem_map]
      rintro ⟨v, hv, hev⟩
      have h1 := anchorCandidate_inj id v j hev
      have h2 := List.mem_range.mp hv
      omega
    have hlen : (((List.range j).map (anchorCandidate id)).reverse).length = j := by simp
    have hloop : anchorLoop (((List.range j).map (anchorCandidate id)).reverse) id
        (j + 1) 0 = anchorCandidate id j :=
      anchorLoop_eq _ id j (j + 1) 0 (Nat.zero_le _) (by omega)
        (fun v _ hv => hmem v hv) hnm
    have hanch : anchorize (((List.range j).map (anchorCandidate id)).reverse) id =
        (anchorCandidate id j,
          anchorCandidate id j :: ((List.range j).map (anchorCandidate id)).reverse) := by
      simp [anchorize, hlen, hloop]
    have hst : anchorCandidate id j :: ((List.range j).map (anchorCandidate id)).reverse =
        ((List.range (j + 1)).map (anchorCandidate id)).reverse := by
      rw [List.range_succ]
      simp
    have hstep : List.replicate (m + 1) id = id :: List.replicate m id := rfl
    rw [hstep]
    simp only [anchorizeRun, hanch, hst]
    rw [ih (j + 1)]
    have : List.range' j (m + 1) = j :: List.range' (j + 1) m := rfl
    rw [this]
    simp

theorem anchorizeRun_not_mem (ids : List String) : ∀ (st : List String) (a : String),
    a ∈ anchorizeRun st ids → a ∉ st := by
  induction ids with
  | nil => intro st a ha; simp [anchorizeRun] at ha
  | cons id rest ih =>
    intro st a ha
    simp only [anchorizeRun, List.mem_cons] at ha
    rcases ha with rfl | ha
    · exact anchorize_fst_not_mem st id
    · have := ih (anchorize st id).2 a ha
      have h2 : (anchorize st id).2 = (anchorize st id).1 :: st := rfl
      rw [h2] at this
      intro hmem
      exact this (List.mem_cons_of_mem _ hmem)

theorem anchorizeRun_nodup (ids : List String) : ∀ st : List String,
    (anchorizeRun st ids).Nodup := by
  induction ids with
  | nil => intro st; simp [anchorizeRun]
  | cons id rest ih =>
    intro st
    simp only [anchorizeRun]
    refine List.Nodup.cons ?_ (ih _)
    intro hmem
    have := anchorizeRun_not_mem rest (anchorize st id).2 _ hmem
    have h2 : (anchorize st id).2 = (anchorize st id).1 :: st := rfl
    rw [h2] at this
    exact this (List.mem_cons_self _ _)

theorem list_get?_head?_drop (l : List Nat) : ∀ n, l.get? n = (l.drop n).head? := by
  induction l with
  | nil => intro n; cases n <;> simp
  | cons a t ih =>
    intro n
    cases n with
    | zero => simp
    | succ k => simp only [List.get?, List.drop_succ_cons]; exact ih k

theorem leadsWith_iff_take (t : List Nat) : ∀ l, leadsWith t l = true ↔ l.take t.length = t := by
  induction t with
  | nil => intro l; simp [leadsWith]
  | cons a as ih =>
    intro l
    cases l with
    | nil => simp [leadsWith]
    | cons b bs =>
      simp only [leadsWith, Bool.and_eq_true, beq_iff_eq, ih bs, List.length_cons,
        List.take_succ_cons, List.cons.injEq]
      constructor
      · rintro ⟨h1, h2⟩; exact ⟨h1.symm, h2⟩
      · rintro ⟨h1, h2⟩; exact ⟨h1.symm, h2⟩

theorem leadsWith_append_self (t x : List Nat) : leadsWith t (t ++ x) = true := by
  rw [leadsWith_iff_take]
  exact List.take_left t x

theorem find?_eq_of_unique (p : List Nat → Bool) (a : List Nat) :
    ∀ l : List (List Nat), a ∈ l → p a = true →
      (∀ x ∈ l, p x = true → x = a) → l.find? p = some a := by
  intro l
  induction l with
  | nil => intro ha; cases ha
  | cons b tl ih =>
    intro ha hpa huniq
    by_cases hb : p b = true
    · have hba : b = a := huniq b (List.mem_cons_self b tl) hb
      subst hba
      rw [List.find?_cons_of_pos _ hb]
    · rw [List.find?_cons_of_neg _ hb]
      rcases List.mem_cons.mp ha with rfl | hat
      · exact absurd hpa hb
      · exact ih hat hpa (fun x hx hp => huniq x (List.mem_cons_of_mem _ hx) hp)

theorem bl_len3 : ∀ t ∈ TAGFILTER_BLACKLIST, 3 ≤ t.length := by decide

theorem bl_head97 : ∀ t ∈ TAGFILTER_BLACKLIST, 97 ≤ t.headD 0 ∧ t.headD 0 ≤ 122 := by decide

theorem bl_no_lead : ∀ t1 ∈ TAGFILTER_BLACKLIST, ∀ t2 ∈ TAGFILTER_BLACKLIST,
    leadsWith t1 t2 = true → t1 = t2 := by decide

theorem bl_unique_match (t x : List Nat) (ht : t ∈ TAGFILTER_BLACKLIST) :
    ∀ t2 ∈ TAGFILTER_BLACKLIST, leadsWith t2 (t ++ x) = true → t2 = t := by
  intro t2 ht2 hl
  rw [leadsWith_iff_take] at hl
  by_cases hle : t2.length ≤ t.length
  · rw [List.take_append_of_le_length hle] at hl
    have hlead : leadsWith t2 t = true := by
      rw [leadsWith_iff_take]
      exact hl
    exact bl_no_lead t2 ht2 t ht hlead
  · obtain ⟨k, hk⟩ : ∃ k, t2.length = t.length + k := ⟨t2.length - t.length, by omega⟩
    rw [hk, List.take_append] at hl
    have hlead : leadsWith t t2 = true := by
      rw [leadsWith_iff_take, ← hl, List.take_left]
    exact (bl_no_lead t ht t2 ht2 hlead).symm

theorem tagfilter_reduce (slash : Bool) (pre t rest : List Nat)
    (htBL : t ∈ TAGFILTER_BLACKLIST) (hlow : pre.map asciiLower = t) :
    tagfilter (60 :: ((if slash then [47] else []) ++ pre ++ rest)) =
      (match rest.head? with
       | none => none
       | some c =>
         some (isspace c || c == 62 || (c == 47 && rest.tail.head? == some 62))) := by
  have hlen3 := bl_len3 t htBL
  have hplen : pre.length = t.length := by
    have := congrArg List.length hlow
    simpa using this
  obtain ⟨p0, pre1, rfl⟩ : ∃ p0 pre1, pre = p0 :: pre1 := by
    cases pre with
    | nil => exfalso; simp at hplen; omega
    | cons a b => exact ⟨a, b, rfl⟩
  obtain ⟨t0, t1, rfl⟩ : ∃ t0 t1, t = t0 :: t1 := by
    cases t with
    | nil => exfalso; simp at hlen3
    | cons a b => exact ⟨a, b, rfl⟩
  have h97 : 97 ≤ t0 ∧ t0 ≤ 122 := by
    have := bl_head97 _ htBL
    simpa [List.headD] using this
  have hp0 : asciiLower p0 = t0 := by
    simp only [List.map_cons, List.cons.injEq] at hlow
    exact hlow.1
  have hlow2 : (p0 :: pre1).map asciiLower = t0 :: t1 := by
    simp only [List.map_cons, List.cons.injEq] at hlow ⊢
    exact hlow
  have hp047 : p0 ≠ 47 := by
    intro e
    subst e
    have h47 : asciiLower 47 = 47 := rfl
    rw [h47] at hp0
    omega
  have hp1len : pre1.length = t1.length := by
    simp at hplen
    exact hplen
  have ht1len : 2 ≤ t1.length := by
    simp at hlen3
    omega
  cases slash with
  | false =>
    simp only [Bool.false_eq_true, if_false, List.nil_append]
    have hguard : ¬ (((60 :: ((p0 :: pre1) ++ rest)).length < 3 ||
        (60 :: ((p0 :: pre1) ++ rest)).head? != some 60) = true) := by
      simp [List.length_append]
      omega
    have hi : ((60 :: ((p0 :: pre1) ++ rest)).get? 1 == some 47) = false := by
      simp only [List.cons_append, List.get?]
      simp [hp047]
    have hmap : ((p0 :: pre1) ++ rest).map asciiLower =
        (t0 :: t1) ++ rest.map asciiLower := by
      rw [List.map_append, hlow2]
    have hfind : TAGFILTER_BLACKLIST.find?
        (fun t2 => leadsWith t2 (((60 :: ((p0 :: pre1) ++ rest)).drop 1).map asciiLower)) =
        some (t0 :: t1) := by
      have hdrop1 : (60 :: ((p0 :: pre1) ++ rest)).drop 1 = (p0 :: pre1) ++ rest := rfl
      rw [hdrop1, hmap]
      exact find?_eq_of_unique _ _ TAGFILTER_BLACKLIST htBL
        (leadsWith_append_self _ _)
        (bl_unique_match _ _ htBL)
    have hj : (60 :: ((p0 :: pre1) ++ rest)).get? (1 + (t0 :: t1).length) = rest.head? := by
      rw [list_get?_head?_drop, Nat.add_comm, List.drop_succ_cons, ← hplen, List.drop_left]
    have hj2 : (60 :: ((p0 :: pre1) ++ rest)).get? (1 + (t0 :: t1).length + 1) =
        rest.tail.head? := by
      rw [list_get?_head?_drop,
        show 1 + (t0 :: t1).length + 1 = ((t0 :: t1).length + 1) + 1 from by omega,
        List.drop_succ_cons, ← List.drop_drop, ← hplen, List.drop_left, List.drop_one]
    simp only [tagfilter, if_neg hguard, hi, Bool.false_eq_true, if_false, hfind, hj, hj2]
  | true =>
    simp only [if_pos rfl]
    have hguard : ¬ (((60 :: ([47] ++ (p0 :: pre1) ++ rest)).length < 3 ||
        (60 :: ([47] ++ (p0 :: pre1) ++ rest)).head? != some 60) = true) := by
      simp [List.length_append]
    have hi : ((60 :: ([47] ++ (p0 :: pre1) ++ rest)).get? 1 == some 47) = true := by
      simp
    have hmap : ((p0 :: pre1) ++ rest).map asciiLower =
        (t0 :: t1) ++ rest.map asciiLower := by
      rw [List.map_append, hlow2]
    have hfind : TAGFILTER_BLACKLIST.find?
        (fun t2 =>
          leadsWith t2 (((60 :: ([47] ++ (p0 :: pre1) ++ rest)).drop 2).map asciiLower)) =
        some (t0 :: t1) := by
      have hdrop2 : (60 :: ([47] ++ (p0 :: pre1) ++ rest)).drop 2 = (p0 :: pre1) ++ rest := rfl
      rw [hdrop2, hmap]
      exact find?_eq_of_unique _ _ TAGFILTER_BLACKLIST htBL
        (leadsWith_append_self _ _)
        (bl_unique_match _ _ htBL)
    have hj : (60 :: ([47] ++ (p0 :: pre1) ++ rest)).get? (2 + (t0 :: t1).length) =
        rest.head? := by
      rw [list_get?_head?_drop,
        show 2 + (t0 :: t1).length = ((t0 :: t1).length + 1) + 1 from by omega,
        List.drop_succ_cons]
      have : ([47] ++ (p0 :: pre1) ++ rest).drop ((t0 :: t1).length + 1) =
          ((p0 :: pre1) ++ rest).drop (t0 :: t1).length := by
        rw [show ([47] ++ (p0 :: pre1) ++ rest) = 47 :: ((p0 :: pre1) ++ rest) from rfl,
          List.drop_succ_cons]
      rw [this, ← hplen, List.drop_left]
    have hj2 : (60 :: ([47] ++ (p0 :: pre1) ++ rest)).get? (2 + (t0 :: t1).length + 1) =
        rest.tail.head? := by
      rw [list_get?_head?_drop,
        show 2 + (t0 :: t1).length + 1 = (((t0 :: t1).length + 1) + 1) + 1 from by omega,
        List.drop_succ_cons]
      have : ([47] ++ (p0 :: pre1) ++ rest).drop (((t0 :: t1).length + 1) + 1) =
          ((p0 :: pre1) ++ rest).drop ((t0 :: t1).length + 1) := by
        rw [show ([47] ++ (p0 :: pre1) ++ rest) = 47 :: ((p0 :: pre1) ++ rest) from rfl,
          List.drop_succ_cons]
      rw [this, ← List.drop_drop, ← hplen, List.drop_left, List.drop_one]
    simp only [tagfilter, if_neg hguard, hi, if_true, hfind, hj, hj2]

theorem tagfilter_shape (lit : List Nat) (h : tagfilter lit ≠ some false) :
    ∃ (slash : Bool) (pre t rest : List Nat),
      t ∈ TAGFILTER_BLACKLIST ∧ pre.map asciiLower = t ∧
      lit = 60 :: ((if slash then [47] else []) ++ pre ++ rest) := by
  by_cases hg : ((lit.length < 3 || lit.head? != some 60) = true)
  · exfalso
    apply h
    simp only [tagfilter, if_pos hg]
  · have hgneg := hg
    simp only [Bool.or_eq_true, not_or, decide_eq_true_eq, bne_iff_ne, ne_eq, not_not] at hg
    obtain ⟨tl, rfl⟩ : ∃ tl, lit = 60 :: tl := by
      cases lit with
      | nil => exact absurd hg.2 (by simp)
      | cons a tl2 =>
        have ha : a = 60 := by simpa using hg.2
        exact ⟨tl2, by rw [ha]⟩
    cases hs : ((60 :: tl).get? 1 == some 47) with
    | true =>
      have hget : (60 :: tl).get? 1 = tl.head? := by cases tl <;> rfl
      have h47 : tl.head? = some 47 := by
        rw [hget] at hs
        simpa using hs
      obtain ⟨tl2, rfl⟩ : ∃ tl2, tl = 47 :: tl2 := by
        cases tl with
        | nil => simp at h47
        | cons x xs =>
          have hx : x = 47 := by simpa using h47
          exact ⟨xs, by rw [hx]⟩
      cases hf : TAGFILTER_BLACKLIST.find?
          (fun t2 => leadsWith t2 (((60 :: 47 :: tl2).drop 2).map asciiLower)) with
      | none =>
        exfalso
        apply h
        simp only [tagfilter, if_neg hgneg, hs, if_true, hf]
      | some t =>
        have htmem := List.mem_of_find?_eq_some hf
        have htp0 := List.find?_some hf
        have htp : leadsWith t (tl2.map asciiLower) = true := htp0
        rw [leadsWith_iff_take] at htp
        refine ⟨true, tl2.take t.length, t, tl2.drop t.length, htmem, ?_, ?_⟩
        · rw [List.map_take, htp]
        · simp [List.take_append_drop]
    | false =>
      cases hf : TAGFILTER_BLACKLIST.find?
          (fun t2 => leadsWith t2 (((60 :: tl).drop 1).map asciiLower)) with
      | none =>
        exfalso
        apply h
        simp only [tagfilter, if_neg hgneg, hs, Bool.false_eq_true, if_false, hf]
      | some t =>
        have htmem := List.mem_of_find?_eq_some hf
        have htp0 := List.find?_some hf
        have htp : leadsWith t (tl.map asciiLower) = true := htp0
        rw [leadsWith_iff_take] at htp
        refine ⟨false, tl.take t.length, t, tl.drop t.length, htmem, ?_, ?_⟩
        · rw [List.map_take, htp]
        · simp [List.take_append_drop]

/-- C8 counterexample: on the four-byte string `<xmp` — a denylisted name
followed by nothing — the source indexes `literal[j]` out of bounds (a
panic, modelled as `none`) instead of returning false as claimed. -/
theorem tagfilter_oob_counterexample :
    tagfilter [60, 120, 109, 112] = none ∧
    tagfilter [60, 120, 109, 112] ≠ some false := by
  constructor
  · decide
  · decide

/-- C8 (amended): `tagfilter` returns true exactly on the byte strings that
begin with `<`, an optional `/`, bytes that case-insensitively spell one of
the nine denylisted names, followed by a whitespace byte, `>`, or `/>`; it
panics (out-of-bounds index, modelled as `none`) exactly when the input ends
immediately after the denylisted name; and on every other byte string it
returns false. -/
theorem tagfilter_characterization (lit : List Nat) :
    (tagfilter lit = some true ↔ ∃ rest, TagfilterHit lit rest ∧ FollowerOk rest) ∧
    (tagfilter lit = none ↔ TagfilterHit lit []) := by
  constructor
  · constructor
    · intro h
      obtain ⟨slash, pre, t, r, htBL, hlow, heq⟩ := tagfilter_shape lit (by rw [h]; simp)
      subst heq
      rw [tagfilter_reduce slash pre t _ htBL hlow] at h
      cases hr : r.head? with
      | none => rw [hr] at h; simp at h
      | some c =>
        rw [hr] at h
        have hrc : r = c :: r.tail := by
          cases r with
          | nil => simp at hr
          | cons x xs =>
            have hx : x = c := by simpa using hr
            simp [hx]
        simp only [Option.some.injEq, Bool.or_eq_true, Bool.and_eq_true, beq_iff_eq] at h
        refine ⟨r, ⟨slash, pre, t, htBL, hlow, rfl⟩, c, r.tail, hrc, ?_⟩
        rcases h with (h1 | h1) | ⟨h1, h2⟩
        · exact Or.inl h1
        · exact Or.inr (Or.inl h1)
        · refine Or.inr (Or.inr ⟨h1, ?_⟩)
          simpa using h2
    · rintro ⟨r, ⟨slash, pre, t, htBL, hlow, heq⟩, c, tail, hrc, hcond⟩
      subst heq
      subst hrc
      rw [tagfilter_reduce slash pre t _ htBL hlow]
      simp only [List.head?_cons, List.tail_cons]
      rcases hcond with h1 | h1 | ⟨h1, h2⟩
      · simp [h1]
      · simp [h1]
      · simp [h1, h2]
  · constructor
    · intro h
      obtain ⟨slash, pre, t, r, htBL, hlow, heq⟩ := tagfilter_shape lit (by rw [h]; simp)
      subst heq
      rw [tagfilter_reduce slash pre t _ htBL hlow] at h
      cases hr : r.head? with
      | some c => rw [hr] at h; simp at h
      | none =>
        have hnil : r = [] := by
          cases r with
          | nil => rfl
          | cons x xs => simp at hr
        subst hnil
        exact ⟨slash, pre, t, htBL, hlow, rfl⟩
    · rintro ⟨slash, pre, t, htBL, hlow, heq⟩
      subst heq
      rw [tagfilter_reduce slash pre t [] htBL hlow]
      rfl

/-- C2: a fresh anchorizer fed `n` heading texts that all normalize to the
same base slug returns, in call order, exactly the candidate ladder
`slug`, `slug_2`, `slug_3`, ... (the suffix is an underscore followed by the
zero-based collision counter plus one); and over any run from any state, no
anchor string is ever returned twice by the same instance (every returned
anchor is recorded as consumed, and consumed anchors are never re-issued,
even when an intermediate candidate was consumed by an earlier different
heading). -/
theorem anchorize_unique_slugs (id : String) (n : Nat) (st ids : List String) :
    anchorizeRun [] (List.replicate n id) = (List.range n).map (anchorCandidate id) ∧
    anchorCandidate id 0 = id ∧
    (∀ k, 1 ≤ k → anchorCandidate id k = id ++ "_" ++ natRepr (k + 1)) ∧
    (anchorizeRun st ids).Nodup := by
  refine ⟨?_, ?_, ?_, anchorizeRun_nodup ids st⟩
  · have := anchorizeRun_replicate id n 0
    simpa [List.range_eq_range'] using this
  · simp [anchorCandidate]
  · intro k hk
    simp only [anchorCandidate]
    have : (k == 0) = false := by
      cases k
      · omega
      · rfl
    rw [this]
    simp

end Rari
